import Mathlib

/-!
Shallow embedding of the `zipassets` package: an in-memory archive-backed
static file server.  Definitions are translated from the Go source
(`zipassets.go` and its later revision with full range/conditional support).
Bytes are modelled as `Nat`, Go `int64` as `Int`, Go `time.Time` as `Int`
seconds (`0` is the zero time), fallible code as `Except`/`Option`, and a
Go runtime panic as `Except.error` with the panic message.
-/

/-- One archive member fully decompressed into memory (Go `filecontent`). -/
structure filecontent where
  name : String
  isDir : Bool
  lastModified : Int
  content : List Nat
deriving DecidableEq, Repr

/-- A byte range to be sent to the client (Go `httpRange`, `start, length int64`). -/
structure httpRange where
  start : Int
  length : Int
deriving DecidableEq, Repr

/-- The request fields the handler consumes.  `ifModifiedSince` holds the
result of `time.Parse(http.TimeFormat, header)` (`none` when absent or
unparsable); the other conditional headers are raw strings, `""` = absent,
matching Go's `Header.Get`. -/
structure Request where
  method : String
  urlPath : String
  ifModifiedSince : Option Int
  ifNoneMatch : String
  ifRange : String
  rangeHeader : String
deriving DecidableEq, Repr

/-- The response writer state: Go's `http.Header` (`map[string][]string`),
the written status code, and the accumulated body bytes. -/
structure Response where
  headers : List (String × List String)
  status : Option Nat
  body : List Nat
deriving DecidableEq, Repr

/-- Bytes of a string, one `Nat` per character (ASCII in all uses). -/
def strBytes (s : String) : List Nat :=
  s.data.map Char.toNat

/-- `Header` lookup of the raw value slice (Go `h[key]`, comma-ok form). -/
def headerLookup (h : List (String × List String)) (k : String) : Option (List String) :=
  (h.find? (fun p => p.1 == k)).map (fun p => p.2)

/-- Go `Header.Get`: first value of the key, or `""`. -/
def headerGet (h : List (String × List String)) (k : String) : String :=
  match headerLookup h k with
  | some (v :: _) => v
  | _ => ""

/-- Go `Header.Set`: replace the key's values with a single value. -/
def headerSet (h : List (String × List String)) (k v : String) : List (String × List String) :=
  (k, [v]) :: h.filter (fun p => p.1 ≠ k)

/-- Go `delete(h, key)`. -/
def headerDel (h : List (String × List String)) (k : String) : List (String × List String) :=
  h.filter (fun p => p.1 ≠ k)

/-- Go `strings.TrimSpace` cutset, restricted to the ASCII space characters. -/
def isGoSpace (c : Char) : Bool :=
  c == ' ' || c == '\t' || c == '\n' || c == '\x0b' || c == '\x0c' || c == '\r'

/-- Go `strings.TrimSpace` on a character list. -/
def goTrimSpace (l : List Char) : List Char :=
  ((l.dropWhile isGoSpace).reverse.dropWhile isGoSpace).reverse

/-- Go `strings.Split(s, ",")`: split on commas, keeping empty pieces. -/
def goSplitComma : List Char → List (List Char)
  | [] => [[]]
  | c :: rest =>
    if c = ',' then [] :: goSplitComma rest
    else
      match goSplitComma rest with
      | g :: gs => (c :: g) :: gs
      | [] => [[c]]

/-- Go `strings.Index(ra, "-")` followed by the two slices `ra[:i]`, `ra[i+1:]`:
`none` when no dash occurs. -/
def splitDash : List Char → Option (List Char × List Char)
  | [] => none
  | c :: rest =>
    if c = '-' then some ([], rest)
    else (splitDash rest).map (fun p => (c :: p.1, p.2))

/-- Decimal digit accumulation of Go `strconv.ParseUint(s, 10, _)`:
`none` on any non-digit character. -/
def digitsVal : List Char → Nat → Option Nat
  | [], acc => some acc
  | c :: rest, acc =>
    if c.isDigit then digitsVal rest (acc * 10 + (c.toNat - 48)) else none

/-- Go `strconv.ParseUint(s, 10, 64)` without the sign handling:
errors on the empty string and on non-digits. -/
def digitsToNat? : List Char → Option Nat
  | [] => none
  | l => digitsVal l 0

/-- Go `strconv.ParseInt(s, 10, 64)`: optional sign, decimal digits,
64-bit signed range check. -/
def goParseInt (s : List Char) : Option Int :=
  match s with
  | [] => none
  | '+' :: rest =>
    match digitsToNat? rest with
    | some n => if n ≤ 9223372036854775807 then some (n : Int) else none
    | none => none
  | '-' :: rest =>
    match digitsToNat? rest with
    | some n => if n ≤ 9223372036854775808 then some (-(n : Int)) else none
    | none => none
  | _ =>
    match digitsToNat? s with
    | some n => if n ≤ 9223372036854775807 then some (n : Int) else none
    | none => none

/-- The body of `parseRange`'s per-entry logic (the code between computing
`start, end` and `ranges = append(ranges, r)`), for one already-trimmed
`start`/`end` pair. -/
def buildRange (s e : List Char) (size : Int) : Except String httpRange :=
  if s = [] then
    -- no start: end specifies the range start relative to the end of the file
    match goParseInt e with
    | none => .error "invalid range"
    | some i0 =>
      let i := if i0 > size then size else i0
      .ok ⟨size - i, size - (size - i)⟩
  else
    match goParseInt s with
    | none => .error "invalid range"
    | some i =>
      if i > size ∨ i < 0 then .error "invalid range"
      else if e = [] then
        -- no end: range extends to end of the file
        .ok ⟨i, size - i⟩
      else
        match goParseInt e with
        | none => .error "invalid range"
        | some j0 =>
          if i > j0 then .error "invalid range"
          else
            let j := if j0 ≥ size then size - 1 else j0
            .ok ⟨i, j - i + 1⟩

/-- The `for _, ra := range strings.Split(...)` loop of `parseRange`:
trim, skip blanks, split at the first dash, build each range, abort on the
first error, keep header order. -/
def parseRangeEntries (size : Int) : List (List Char) → Except String (List httpRange)
  | [] => .ok []
  | ra0 :: rest =>
    let ra := goTrimSpace ra0
    if ra = [] then parseRangeEntries size rest
    else
      match splitDash ra with
      | none => .error "invalid range"
      | some (sPart, ePart) =>
        match buildRange (goTrimSpace sPart) (goTrimSpace ePart) size with
        | .error e => .error e
        | .ok r =>
          match parseRangeEntries size rest with
          | .error e => .error e
          | .ok rs => .ok (r :: rs)

/-- Go `parseRange(s string, size int64) ([]httpRange, error)` per RFC 2616:
empty header parses to no ranges with no error; the header must start with
the literal `bytes=`. -/
def parseRange (s : String) (size : Int) : Except String (List httpRange) :=
  if s = "" then .ok []
  else if s.data.take 6 ≠ "bytes=".data then .error "invalid range"
  else parseRangeEntries size (goSplitComma (s.data.drop 6))

/-- Go `sumRangesSize`. -/
def sumRangesSize (ranges : List httpRange) : Int :=
  ranges.foldl (fun acc ra => acc + ra.length) 0

/-- Go `(r httpRange) contentRange(size)`: `fmt.Sprintf("bytes %d-%d/%d", ...)`. -/
def contentRange (r : httpRange) (size : Int) : String :=
  "bytes " ++ toString r.start ++ "-" ++ toString (r.start + r.length - 1) ++ "/" ++ toString size

/-- Go `(r httpRange) mimeHeader(contentType, size)` as serialized by
`multipart.Writer.CreatePart` (keys written sorted, one `k: v\r\n` line per
value): `Content-Range` then `Content-Type`. -/
def mimeHeaderLines (ctype : String) (r : httpRange) (size : Int) : String :=
  "Content-Range: " ++ contentRange r size ++ "\r\n" ++ "Content-Type: " ++ ctype ++ "\r\n"

/-- The bytes `multipart.Writer.CreatePart` emits before a part's body:
`--boundary\r\n` for the first part, `\r\n--boundary\r\n` afterwards, then
the serialized header lines and a blank line. -/
def partFraming (boundary : String) (first : Bool) (hdr : String) : String :=
  (if first then "--" ++ boundary ++ "\r\n" else "\r\n--" ++ boundary ++ "\r\n") ++ hdr ++ "\r\n"

/-- The bytes `multipart.Writer.Close` emits: `\r\n--boundary--\r\n`. -/
def closeDelim (boundary : String) : String :=
  "\r\n--" ++ boundary ++ "--" ++ "\r\n"

/-- The body bytes the streaming goroutine copies for one range:
`io.CopyN(part, bytes.NewReader(fc.content[ra.start:size]), ra.length)` —
at most `ra.length` bytes starting at `ra.start`, fewer on early EOF,
none when `ra.length ≤ 0`. -/
def bodySlice (content : List Nat) (r : httpRange) : List Nat :=
  (content.drop r.start.toNat).take r.length.toNat

/-- The multipart parts the streaming goroutine in `ServeHTTP` writes:
per range, the `CreatePart` framing then the copied body bytes. -/
def mimeParts (boundary ctype : String) (size : Int) (content : List Nat) :
    Bool → List httpRange → List Nat
  | _, [] => []
  | first, r :: rs =>
    strBytes (partFraming boundary first (mimeHeaderLines ctype r size))
      ++ bodySlice content r
      ++ mimeParts boundary ctype size content false rs

/-- Everything the streaming multipart producer writes through the pipe:
all parts, then the close delimiter. -/
def multipartBody (boundary ctype : String) (size : Int) (content : List Nat)
    (ranges : List httpRange) : List Nat :=
  mimeParts boundary ctype size content true ranges ++ strBytes (closeDelim boundary)

/-- The loop of Go `rangesMIMESize`: `mw.CreatePart(ra.mimeHeader(...))`
writes only the framing to the counting sink, then `encSize += ra.length`. -/
def mimeSizeParts (boundary ctype : String) (size : Int) : Bool → List httpRange → Int
  | _, [] => 0
  | first, r :: rs =>
    ((partFraming boundary first (mimeHeaderLines ctype r size)).length : Int) + r.length
      + mimeSizeParts boundary ctype size false rs

/-- Go `rangesMIMESize(ranges, contentType, contentSize)`: the counted
framing bytes plus each range's raw length plus the close delimiter. -/
def rangesMIMESize (boundary : String) (ranges : List httpRange) (ctype : String)
    (contentSize : Int) : Int :=
  mimeSizeParts boundary ctype contentSize true ranges + ((closeDelim boundary).length : Int)

/-- Models `time.Time.UTC().Format(http.TimeFormat)` (stdlib collaborator,
out of core scope) as an injective encoding of the second-precision
timestamp. -/
def httpTimeFormat (t : Int) : String :=
  "HTTP-date:" ++ toString t

/-- Go `checkLastModified(w, r, modtime)`: `true` means the request is now
complete.  `modtime` is in seconds, `0` is the zero time, and the
`If-Modified-Since` comparison uses `modtime < t + 1s`. -/
def checkLastModified (resp : Response) (req : Request) (modtime : Int) : Response × Bool :=
  if modtime = 0 then (resp, false)
  else
    match req.ifModifiedSince with
    | some t =>
      if modtime < t + 1 then
        ({ headers := headerDel (headerDel resp.headers "Content-Type") "Content-Length",
           status := some 304, body := resp.body }, true)
      else ({ resp with headers := headerSet resp.headers "Last-Modified" (httpTimeFormat modtime) }, false)
    | none => ({ resp with headers := headerSet resp.headers "Last-Modified" (httpTimeFormat modtime) }, false)

/-- Go `checkETag(w, r)`: returns the effective `Range` header and whether
the request is done; implements the `If-Range` invalidation and the
GET/HEAD-only `If-None-Match` check against the response's current `Etag`. -/
def checkETag (resp : Response) (req : Request) : String × Bool × Response :=
  let etag := headerGet resp.headers "Etag"
  let rangeReq := if req.ifRange ≠ "" ∧ req.ifRange ≠ etag then "" else req.rangeHeader
  if req.ifNoneMatch ≠ "" then
    if etag = "" then (rangeReq, false, resp)
    else if req.method ≠ "GET" ∧ req.method ≠ "HEAD" then (rangeReq, false, resp)
    else if req.ifNoneMatch = etag ∨ req.ifNoneMatch = "*" then
      ("", true,
        { headers := headerDel (headerDel resp.headers "Content-Type") "Content-Length",
          status := some 304, body := resp.body })
    else (rangeReq, false, resp)
  else (rangeReq, false, resp)

/-- Go `filepath.Ext`: the suffix beginning at the final dot in the final
slash-separated element (scan from the end, stop at a path separator). -/
def extFromRev : List Char → List Char → String
  | [], _ => ""
  | c :: rest, acc =>
    if c = '/' then ""
    else if c = '.' then String.mk (c :: acc)
    else extFromRev rest (c :: acc)

def fileExt (s : String) : String :=
  extFromRev s.data.reverse []

/-- Go `http.Error(w, error, code)`: set `Content-Type`, drop any
`Content-Length`, write the status, write `error` plus a newline. -/
def httpError (resp : Response) (msg : String) (code : Nat) : Response :=
  { headers := headerSet (headerSet (headerDel resp.headers "Content-Length")
      "Content-Type" "text/plain; charset=utf-8") "X-Content-Type-Options" "nosniff",
    status := some code,
    body := strBytes (msg ++ "\n") }

/-- The Content-Type resolution block of `ServeHTTP`.  When no
`Content-Type` is present and the extension lookup yields nothing, the code
copies into a never-allocated `var buf []byte` and then slices `buf[:n]`:
for `n > 0` that slice of a nil (capacity-0) slice is a Go runtime panic. -/
def resolveContentType (mimeByExt : String → String) (detectCT : List Nat → String)
    (headers : List (String × List String)) (upath : String) (content : List Nat) :
    Except String String :=
  match headerLookup headers "Content-Type" with
  | some ctypes => .ok (ctypes.headD "")
  | none =>
    let c := mimeByExt (fileExt upath)
    if c = "" then
      if min 512 content.length > 0 then
        .error "runtime error: slice bounds out of range"
      else .ok (detectCT [])
    else .ok c

/-- Lines 301-311 of the handler: set `Accept-Ranges`, set `Content-Length`
unless a `Content-Encoding` is present, write the status code, and unless
the method is HEAD copy `sendSize` bytes of the resolved body
(`io.CopyN` copies fewer on early EOF and none for a non-positive count). -/
def finishResp (resp : Response) (code : Nat) (sendSize : Int) (sendBody : List Nat)
    (method : String) : Response :=
  let h := headerSet resp.headers "Accept-Ranges" "bytes"
  let h := if headerGet h "Content-Encoding" = "" then
      headerSet h "Content-Length" (toString sendSize)
    else h
  { headers := h, status := some code,
    body := resp.body ++ (if method ≠ "HEAD" then sendBody.take sendSize.toNat else []) }

/-- The range-resolution and emission tail of `ServeHTTP` (after the
Content-Type block).  `b1` is the boundary of the `rangesMIMESize` writer,
`b2` the boundary of the streaming writer (Go draws each at random with a
fixed length).  A parse failure emits 416; a multi-range request with some
`ra.start > size` calls `http.Error(rw, err.Error(), ...)` on a nil `err`,
a nil-pointer dereference panic.  In the single-range case the code never
repositions `sendContent` (the `Seek` is commented out), so the body is
copied from offset 0 of the full content. -/
def serveRanges (b1 b2 ctype : String) (content : List Nat) (rangeReq method : String)
    (resp : Response) : Except String Response :=
  let size : Int := content.length
  match parseRange rangeReq size with
  | .error _ => .ok (httpError resp "invalid range" 416)
  | .ok ranges0 =>
    let ranges := if sumRangesSize ranges0 > size then [] else ranges0
    match ranges with
    | [ra] =>
      let resp := { resp with headers := headerSet resp.headers "Content-Range" (contentRange ra size) }
      .ok (finishResp resp 206 ra.length content method)
    | [] => .ok (finishResp resp 200 size content method)
    | _ =>
      if ranges.any (fun ra => ra.start > size) then
        .error "runtime error: invalid memory address or nil pointer dereference"
      else
        let h := headerSet resp.headers "Content-Type" ("multipart/byteranges; boundary=" ++ b2)
        let resp := { resp with headers := h }
        .ok (finishResp resp 206 (rangesMIMESize b1 ranges ctype size)
          (multipartBody b2 ctype size content ranges) method)

/-- Strip one leading `/` from the request path (Go
`strings.HasPrefix(upath, "/")` then `upath[1:]`). -/
def stripSlash (s : String) : String :=
  match s.data with
  | '/' :: rest => String.mk rest
  | _ => s

/-- Go map read `za.files[upath]`. -/
def lookupFile (files : List (String × filecontent)) (k : String) : Option filecontent :=
  (files.find? (fun p => p.1 == k)).map (fun p => p.2)

/-- Go `(za *ZipAssets) ServeHTTP(rw, req)` from the revision with full
conditional/range support: path lookup, `checkLastModified`, `checkETag`,
Content-Type resolution (which can panic, see `resolveContentType`), then
range resolution and emission.  An `Except.error` is a Go runtime panic. -/
def serveHTTP (mimeByExt : String → String) (detectCT : List Nat → String)
    (b1 b2 : String) (files : List (String × filecontent))
    (req : Request) (resp : Response) : Except String Response :=
  let upath := stripSlash req.urlPath
  match lookupFile files upath with
  | none => .ok (httpError resp "404 page not found" 404)
  | some fc =>
    match checkLastModified resp req fc.lastModified with
    | (resp1, true) => .ok resp1
    | (resp1, false) =>
      match checkETag resp1 req with
      | (_, true, resp2) => .ok resp2
      | (rangeReq, false, resp2) =>
        match resolveContentType mimeByExt detectCT resp2.headers upath fc.content with
        | .error e => .error e
        | .ok ctype => serveRanges b1 b2 ctype fc.content rangeReq req.method resp2

/-- One tar archive member as seen by `openTar`: header name, modification
time, directory flag, and the fully drained body bytes. -/
structure TarMember where
  name : String
  modTime : Int
  isDir : Bool
  body : List Nat
deriving DecidableEq, Repr

/-- The key set of the map built by `openTar`.  `za.files[hdr.Name] = &fc`
inserts the member name (duplicates overwrite). -/
def openTarKeys (ms : List TarMember) : List String :=
  ms.foldl (fun ks m => if m.name ∈ ks then ks else ks ++ [m.name]) []

/-- The single `filecontent` cell of `openTar`: the loop declares one
`var fc filecontent` and stores `&fc` as every map value, so every
iteration overwrites the same cell's four fields. -/
def openTarCell (ms : List TarMember) : filecontent :=
  ms.foldl (fun _ m => ⟨m.name, m.isDir, m.modTime, m.body⟩) ⟨"", false, 0, []⟩

/-- The store `openTar` builds: the map's key set plus the one shared cell
all values alias (Go `map[string]*filecontent` holding the same pointer). -/
def openTarStore (ms : List TarMember) : List String × filecontent :=
  (openTarKeys ms, openTarCell ms)

/-- Reading the map built by `openTar`: any present key dereferences the
shared cell, hence observes its final state. -/
def openTarLookup (st : List String × filecontent) (k : String) : Option filecontent :=
  if k ∈ st.1 then some st.2 else none

/-- The archive formats `NewZipAssets` can select. -/
inductive ArchiveFormat
  | zip
  | tarGz
  | tarBz2
deriving DecidableEq, Repr

/-- The two handlers `NewZipAssets` can return: the directory-fallback
`http.FileServer` (an out-of-scope collaborator, recorded here only by the
pathname it was built from) or the in-memory `ZipAssets` store. -/
inductive HandlerModel
  | dirServer (pathname : String)
  | assets (files : List (String × filecontent))
deriving DecidableEq, Repr

/-- Go `strings.ToLower`, ASCII case (all suffixes compared are ASCII). -/
def goToLower (s : String) : String :=
  String.mk (s.data.map Char.toLower)

/-- Go `strings.HasSuffix` on the raw character lists. -/
def strEndsWith (s suf : String) : Bool :=
  List.isSuffixOf suf.data s.data

/-- The suffix dispatch of `NewZipAssets`: `.zip`, else `.tar.gz`, else
`.tar.bz2`, on the lower-cased pathname; `none` when no branch matches
(and hence no loader runs). -/
def selectFormat (pathname : String) : Option ArchiveFormat :=
  let lower := goToLower pathname
  if strEndsWith lower ".zip" then some .zip
  else if strEndsWith lower ".tar.gz" then some .tarGz
  else if strEndsWith lower ".tar.bz2" then some .tarBz2
  else none

/-- Go `NewZipAssets(pathname, args...)`: a `true` boolean first argument
selects the directory fallback immediately; otherwise the suffix dispatch
runs the matching loader (abstracted as `load`, since loading performs file
I/O; see `openTarStore` for the in-memory result model).  A loader error
returns the directory-fallback handler together with that error; when no
suffix matches, no loader runs, `err` stays nil and the freshly allocated
empty `ZipAssets` is returned. -/
def newZipAssets (pathname : String) (debugArg : Option Bool)
    (load : ArchiveFormat → Except String (List (String × filecontent))) :
    HandlerModel × Option String :=
  if debugArg = some true then (.dirServer pathname, none)
  else
    match selectFormat pathname with
    | some f =>
      match load f with
      | .error e => (.dirServer pathname, some e)
      | .ok files => (.assets files, none)
    | none => (.assets [], none)

/-- The result a matched loader produces for `NewZipAssets` (success gives
the store and nil error, failure the directory fallback plus the error). -/
def loadResultHandler (pathname : String)
    (r : Except String (List (String × filecontent))) : HandlerModel × Option String :=
  match r with
  | .error e => (.dirServer pathname, some e)
  | .ok files => (.assets files, none)

/-- C1: the code, evaluated at an archive with members `a.txt`
(content "hello", mtime 100) and `dir/b.bin` (bytes `[0,1,255]`,
mtime 200): the store's key set is exactly those two names, but — because
`openTar` stores `&fc` of a single loop variable as every map value —
looking up `a.txt` yields `dir/b.bin`'s content and mtime, not "hello"
and 100, contradicting the claimed per-member entries. -/
theorem C1_openTar_aliasing_eval :
    openTarStore [⟨"a.txt", 100, false, strBytes "hello"⟩,
        ⟨"dir/b.bin", 200, false, [0, 1, 255]⟩]
      = (["a.txt", "dir/b.bin"], ⟨"dir/b.bin", false, 200, [0, 1, 255]⟩) ∧
    openTarLookup (openTarStore [⟨"a.txt", 100, false, strBytes "hello"⟩,
        ⟨"dir/b.bin", 200, false, [0, 1, 255]⟩]) "a.txt"
      = some ⟨"dir/b.bin", false, 200, [0, 1, 255]⟩ ∧
    [0, 1, 255] ≠ strBytes "hello" :=
  ⟨rfl, rfl, by decide⟩

/-- C2: the code, evaluated at a 10-byte entry under `Range: bytes=2-5`:
status 206, `Content-Range: bytes 2-5/10` and `Content-Length: 4` are as
claimed, but the body is bytes `[0,1,2,3]` — the slice from offset 0, not
the claimed slice `[2,3,4,5]` beginning at the range start (the reader is
never repositioned; the `Seek` call is commented out). -/
theorem C2_single_range_body_from_offset_zero :
    serveHTTP (fun _ => "") (fun _ => "") "b1" "b2"
      [("f", ⟨"f", false, 0, [0, 1, 2, 3, 4, 5, 6, 7, 8, 9]⟩)]
      ⟨"GET", "/f", none, "", "", "bytes=2-5"⟩
      ⟨[("Content-Type", ["application/octet-stream"])], none, []⟩
    = .ok ⟨[("Content-Length", ["4"]), ("Accept-Ranges", ["bytes"]),
        ("Content-Range", ["bytes 2-5/10"]),
        ("Content-Type", ["application/octet-stream"])], some 206, [0, 1, 2, 3]⟩ ∧
    [0, 1, 2, 3] ≠ [2, 3, 4, 5] :=
  ⟨rfl, by decide⟩

/-- C4: two stored-path requests that make the handler panic, refuting the
claimed 404/416-only failure surface: (a) a GET for an entry with unknown
extension and non-empty content (no preset `Content-Type`) panics slicing
the never-allocated sniff buffer `buf[:n]`; (b) a multi-range request whose
suffix numbers are negative reaches `ra.start > size` and calls
`err.Error()` on a nil error. -/
theorem C4_handler_panics :
    serveHTTP (fun _ => "") (fun _ => "") "b1" "b2"
      [("data.bin", ⟨"data.bin", false, 0, [1]⟩)]
      ⟨"GET", "/data.bin", none, "", "", ""⟩ ⟨[], none, []⟩
      = .error "runtime error: slice bounds out of range" ∧
    serveHTTP (fun _ => "") (fun _ => "") "b1" "b2"
      [("h", ⟨"h", false, 0, [0, 1, 2, 3, 4, 5, 6, 7, 8, 9]⟩)]
      ⟨"GET", "/h", none, "", "", "bytes=--5,--6"⟩ ⟨[("Content-Type", ["x"])], none, []⟩
      = .error "runtime error: invalid memory address or nil pointer dereference" :=
  ⟨rfl, rfl⟩

/-- C5: the six specified range-parser vectors, exactly as claimed. -/
theorem C5_parse_vectors :
    parseRange "bytes=0-4" 10 = .ok [⟨0, 5⟩] ∧
    parseRange "bytes=-5" 10 = .ok [⟨5, 5⟩] ∧
    parseRange "bytes=5-" 10 = .ok [⟨5, 5⟩] ∧
    parseRange "bytes=0-0,2-2" 10 = .ok [⟨0, 1⟩, ⟨2, 1⟩] ∧
    parseRange "foo=0-1" 10 = .error "invalid range" ∧
    parseRange "bytes=20-30" 10 = .error "invalid range" :=
  ⟨rfl, rfl, rfl, rfl, rfl, rfl⟩

/-- C3 counterexample: the range `{start 5, length -3}` satisfies the
claim's hypotheses (`0 ≤ start`, `start + length ≤ size`) for a 10-byte
resource, yet the size estimator counts `-3` body bytes for it while the
streaming producer copies none, so the estimate differs from the bytes
actually written (here with equal boundaries on both sides). -/
theorem C3_counterexample :
    (0 ≤ (5 : Int) ∧ (5 : Int) + (-3) ≤ 10) ∧
    rangesMIMESize "b" [⟨5, -3⟩] "x" 10
      ≠ ((multipartBody "b" "x" 10 [0, 1, 2, 3, 4, 5, 6, 7, 8, 9] [⟨5, -3⟩]).length : Int) :=
  ⟨by decide, by decide⟩

/-- C6 counterexample: `parseRange "bytes=--5" 10` succeeds (the suffix
number itself parses as `-5`) and returns `{start 15, length -5}`, whose
length is negative and whose start exceeds the size, refuting the claimed
`length ≥ 0` invariant. -/
theorem C6_counterexample :
    parseRange "bytes=--5" 10 = .ok [⟨15, -5⟩] ∧ ((-5 : Int) < 0 ∧ (10 : Int) < 15) :=
  ⟨rfl, by decide⟩

/-- C9 counterexample: construction from a path with an unmatched suffix
(`assets.txt`) runs no loader and returns the freshly allocated empty
store with a nil error — not the claimed construction error. -/
theorem C9_counterexample :
    newZipAssets "assets.txt" none (fun _ => .error "boom") = (.assets [], none) :=
  rfl

/-- C10 counterexample: a 1-byte resource (`s = 1 > 0`) whose path has an
unknown extension and whose request carries `Range: bytes=1-`: the handler
panics in content-type sniffing before any range handling, so ServeHTTP
does not respond 206 as claimed. -/
theorem C10_counterexample :
    serveHTTP (fun _ => "") (fun _ => "") "b1" "b2"
      [("g.x", ⟨"g.x", false, 0, [7]⟩)]
      ⟨"GET", "/g.x", none, "", "", "bytes=1-"⟩ ⟨[], none, []⟩
      = .error "runtime error: slice bounds out of range" :=
  rfl

theorem buildRange_invariant {s e : List Char} {size : Int} {r : httpRange}
    (h : buildRange s e size = Except.ok r) :
    0 ≤ r.start ∧ r.start + r.length ≤ size := by
  obtain ⟨rs, rl⟩ := r
  simp only [buildRange] at h
  repeat' split at h
  all_goals first
    | exact Except.noConfusion h
    | (simp only [Except.ok.injEq, httpRange.mk.injEq] at h; dsimp only; omega)

theorem parseRangeEntries_invariant {es : List (List Char)} {size : Int}
    {rs : List httpRange} (h : parseRangeEntries size es = Except.ok rs) :
    ∀ r ∈ rs, 0 ≤ r.start ∧ r.start + r.length ≤ size := by
  induction es generalizing rs with
  | nil =>
    simp only [parseRangeEntries, Except.ok.injEq] at h
    subst h
    simp
  | cons ra0 rest ih =>
    simp only [parseRangeEntries] at h
    split at h
    · exact ih h
    · split at h
      · exact Except.noConfusion h
      · split at h
        · exact Except.noConfusion h
        · rename_i r0 hr0
          split at h
          · exact Except.noConfusion h
          · rename_i rs0 hrs0
            simp only [Except.ok.injEq] at h
            subst h
            intro x hx
            rcases List.mem_cons.mp hx with rfl | hx'
            · exact buildRange_invariant hr0
            · exact ih hrs0 x hx'

theorem parseRange_invariant {s : String} {size : Int} {rs : List httpRange}
    (h : parseRange s size = Except.ok rs) :
    ∀ r ∈ rs, 0 ≤ r.start ∧ r.start + r.length ≤ size := by
  simp only [parseRange] at h
  split at h
  · simp only [Except.ok.injEq] at h
    subst h
    simp
  · split at h
    · exact Except.noConfusion h
    · exact parseRangeEntries_invariant h

theorem buildRange_suffix_form {e : List Char} {i : Int} (size : Int)
    (hp : goParseInt e = some i) :
    buildRange [] e size = Except.ok ⟨size - min i size, size - (size - min i size)⟩ := by
  simp only [buildRange, hp, if_pos rfl]
  by_cases hi : i > size <;> simp only [hi, if_true, if_false, ite_true, ite_false] <;>
    congr 1 <;> simp only [httpRange.mk.injEq] <;> constructor <;> omega

/-- C6 (amended): for every header string and size ≥ 0, whenever
`parseRange` succeeds every returned range satisfies `start ≥ 0` and
`start + length ≤ size` — but not the claimed `length ≥ 0`, which fails
when the suffix number itself is negative (see the counterexample); and
the suffix form `-N` yields `start = size - min(N, size)` and
`length = size - start`. -/
theorem C6_range_invariant_amended :
    (∀ (s : String) (size : Int) (rs : List httpRange), 0 ≤ size →
      parseRange s size = Except.ok rs →
      ∀ r ∈ rs, 0 ≤ r.start ∧ r.start + r.length ≤ size) ∧
    (∀ (e : List Char) (i size : Int), 0 ≤ size → goParseInt e = some i →
      buildRange [] e size = Except.ok ⟨size - min i size, size - (size - min i size)⟩) :=
  ⟨fun _ _ _ _ h => parseRange_invariant h,
   fun _ _ size _ hp => buildRange_suffix_form size hp⟩

/-- Witness for C6 (amended) at `parse("bytes=0-4", 10)` and the suffix
entry `-5` against size 10. -/
theorem C6_range_invariant_amended_witness :
    (0 ≤ (0 : Int) ∧ (0 : Int) + 5 ≤ 10) ∧
    buildRange [] ['5'] 10 = Except.ok ⟨10 - min 5 10, 10 - (10 - min 5 10)⟩ :=
  ⟨C6_range_invariant_amended.1 "bytes=0-4" 10 [⟨0, 5⟩] (by decide) rfl ⟨0, 5⟩ (by decide),
   C6_range_invariant_amended.2 ['5'] 5 10 (by decide) rfl⟩

/-- C7: for a non-zero mtime, a parsed `If-Modified-Since` date `t` with
`modtime < t + 1s` yields 304 with `Content-Type`/`Content-Length` removed
and stops; otherwise (no parsed date, or not before) the handler sets
`Last-Modified` to the formatted mtime and continues; consequently
`If-Modified-Since` one second after the mtime yields 304 and one second
before continues to normal handling. -/
theorem C7_checkLastModified (resp : Response) (req : Request) (modtime : Int)
    (hmz : modtime ≠ 0) :
    (∀ t, req.ifModifiedSince = some t → modtime < t + 1 →
      checkLastModified resp req modtime =
        ({ headers := headerDel (headerDel resp.headers "Content-Type") "Content-Length",
           status := some 304, body := resp.body }, true)) ∧
    (∀ t, req.ifModifiedSince = some t → ¬ modtime < t + 1 →
      checkLastModified resp req modtime =
        ({ resp with headers := headerSet resp.headers "Last-Modified" (httpTimeFormat modtime) },
          false)) ∧
    (req.ifModifiedSince = none →
      checkLastModified resp req modtime =
        ({ resp with headers := headerSet resp.headers "Last-Modified" (httpTimeFormat modtime) },
          false)) ∧
    (checkLastModified resp { req with ifModifiedSince := some (modtime + 1) } modtime).2 = true ∧
    (checkLastModified resp { req with ifModifiedSince := some (modtime - 1) } modtime).2 = false := by
  refine ⟨?_, ?_, ?_, ?_, ?_⟩
  · intro t ht hlt
    simp [checkLastModified, hmz, ht, hlt]
  · intro t ht hlt
    simp [checkLastModified, hmz, ht, hlt]
  · intro hnone
    simp [checkLastModified, hmz, hnone]
  · simp [checkLastModified, hmz, show modtime < modtime + 1 + 1 by omega]
  · simp [checkLastModified, hmz, show ¬ modtime < modtime - 1 + 1 by omega]

/-- Witness for C7 at mtime 5 with `If-Modified-Since` parsing to 6. -/
theorem C7_checkLastModified_witness :
    checkLastModified ⟨[], none, []⟩ ⟨"GET", "/f", some 6, "", "", ""⟩ 5
      = (⟨[], some 304, []⟩, true) := by
  simpa using (C7_checkLastModified ⟨[], none, []⟩ ⟨"GET", "/f", some 6, "", "", ""⟩ 5
    (by decide)).1 6 rfl (by decide)

/-- C8: `If-None-Match` with method GET or HEAD and a non-empty current
ETag that matches exactly or is `*` yields 304 with
`Content-Type`/`Content-Length` removed, no body written, and stops; an
empty ETag never matches; other methods skip the check; and a non-empty
`If-Range` differing from the ETag makes the effective `Range` header
empty. -/
theorem C8_checkETag (resp : Response) (req : Request) :
    (req.ifNoneMatch ≠ "" → (req.method = "GET" ∨ req.method = "HEAD") →
      headerGet resp.headers "Etag" ≠ "" →
      (req.ifNoneMatch = headerGet resp.headers "Etag" ∨ req.ifNoneMatch = "*") →
      checkETag resp req = ("", true,
        { headers := headerDel (headerDel resp.headers "Content-Type") "Content-Length",
          status := some 304, body := resp.body })) ∧
    (headerGet resp.headers "Etag" = "" →
      (checkETag resp req).2.1 = false ∧ (checkETag resp req).2.2 = resp) ∧
    (req.method ≠ "GET" → req.method ≠ "HEAD" →
      (checkETag resp req).2.1 = false ∧ (checkETag resp req).2.2 = resp) ∧
    (req.ifRange ≠ "" → req.ifRange ≠ headerGet resp.headers "Etag" →
      (checkETag resp req).1 = "") := by
  refine ⟨?_, ?_, ?_, ?_⟩
  · intro hinm hmeth hetag hmatch
    have hm : ¬(req.method ≠ "GET" ∧ req.method ≠ "HEAD") := by tauto
    simp [checkETag, hinm, hetag, hm, hmatch]
  · intro hetag
    by_cases hinm : req.ifNoneMatch = "" <;> simp [checkETag, hinm, hetag]
  · intro h1 h2
    by_cases hinm : req.ifNoneMatch = "" <;>
      by_cases hetag : headerGet resp.headers "Etag" = "" <;>
      simp [checkETag, hinm, hetag, h1, h2]
  · intro h1 h2
    have hc : req.ifRange ≠ "" ∧ req.ifRange ≠ headerGet resp.headers "Etag" := ⟨h1, h2⟩
    by_cases hinm : req.ifNoneMatch = "" <;>
      by_cases hetag : headerGet resp.headers "Etag" = "" <;>
      simp [checkETag, hinm, hetag, hc] <;>
      (repeat' split) <;> rfl

/-- Witness for C8: a GET whose `If-None-Match` equals the current ETag. -/
theorem C8_checkETag_witness :
    checkETag ⟨[("Etag", ["\"v1\""])], none, []⟩ ⟨"GET", "/f", none, "\"v1\"", "", "bytes=0-1"⟩
      = ("", true, ⟨[("Etag", ["\"v1\""])], some 304, []⟩) := by
  simpa using (C8_checkETag ⟨[("Etag", ["\"v1\""])], none, []⟩
    ⟨"GET", "/f", none, "\"v1\"", "", "bytes=0-1"⟩).1 (by decide) (Or.inl rfl)
    (by decide) (Or.inl (by decide))

/-- C9 (amended): construction selects the format by case-insensitive
filename suffix — `.zip` the zip loader, else `.tar.gz` the gzip-then-tar
loader, else `.tar.bz2` the bzip2-then-tar loader (a loader error returns
the directory-fallback handler together with that error) — but a path with
any other suffix is NOT a construction error: no loader runs and the
handler over a freshly allocated empty store is returned with a nil
error. -/
theorem C9_suffix_dispatch_amended (pathname : String)
    (load : ArchiveFormat → Except String (List (String × filecontent))) :
    (strEndsWith (goToLower pathname) ".zip" = true →
      newZipAssets pathname none load = loadResultHandler pathname (load .zip)) ∧
    (strEndsWith (goToLower pathname) ".zip" = false →
      strEndsWith (goToLower pathname) ".tar.gz" = true →
      newZipAssets pathname none load = loadResultHandler pathname (load .tarGz)) ∧
    (strEndsWith (goToLower pathname) ".zip" = false →
      strEndsWith (goToLower pathname) ".tar.gz" = false →
      strEndsWith (goToLower pathname) ".tar.bz2" = true →
      newZipAssets pathname none load = loadResultHandler pathname (load .tarBz2)) ∧
    (strEndsWith (goToLower pathname) ".zip" = false →
      strEndsWith (goToLower pathname) ".tar.gz" = false →
      strEndsWith (goToLower pathname) ".tar.bz2" = false →
      newZipAssets pathname none load = (.assets [], none)) := by
  refine ⟨?_, ?_, ?_, ?_⟩
  · intro h1
    cases hl : load .zip <;>
      simp [newZipAssets, selectFormat, loadResultHandler, h1, hl]
  · intro h1 h2
    cases hl : load .tarGz <;>
      simp [newZipAssets, selectFormat, loadResultHandler, h1, h2, hl]
  · intro h1 h2 h3
    cases hl : load .tarBz2 <;>
      simp [newZipAssets, selectFormat, loadResultHandler, h1, h2, h3, hl]
  · intro h1 h2 h3
    simp [newZipAssets, selectFormat, h1, h2, h3]

/-- Witness for C9 (amended): an upper-case `.ZIP` path selects the zip
loader (case-insensitively) and returns its store with a nil error. -/
theorem C9_suffix_dispatch_amended_witness :
    newZipAssets "X.ZIP" none (fun _ => .ok [("a", ⟨"a", false, 0, []⟩)])
      = (.assets [("a", ⟨"a", false, 0, []⟩)], none) := by
  simpa using (C9_suffix_dispatch_amended "X.ZIP"
    (fun _ => .ok [("a", ⟨"a", false, 0, []⟩)])).1 (by decide)

theorem strBytes_length (s : String) : (strBytes s).length = s.length := by
  simp [strBytes]

theorem partFraming_length {b1 b2 : String} (first : Bool) (hdr : String)
    (hb : b1.length = b2.length) :
    (partFraming b1 first hdr).length = (partFraming b2 first hdr).length := by
  cases first <;> simp [partFraming, String.length_append, hb]

theorem bodySlice_length {content : List Nat} {r : httpRange}
    (h0 : 0 ≤ r.start) (h1 : 0 ≤ r.length)
    (h2 : r.start + r.length ≤ (content.length : Int)) :
    ((bodySlice content r).length : Int) = r.length := by
  simp only [bodySlice, List.length_take, List.length_drop]
  omega

theorem mimeParts_length {b1 b2 ctype : String} {content : List Nat}
    (hb : b1.length = b2.length) (first : Bool) (ranges : List httpRange)
    (h : ∀ r ∈ ranges, 0 ≤ r.start ∧ 0 ≤ r.length ∧ r.start + r.length ≤ (content.length : Int)) :
    mimeSizeParts b1 ctype (content.length : Int) first ranges
      = ((mimeParts b2 ctype (content.length : Int) content first ranges).length : Int) := by
  induction ranges generalizing first with
  | nil => simp [mimeSizeParts, mimeParts]
  | cons r rs ih =>
    have hr := h r (List.mem_cons_self r rs)
    have ihr := ih false (fun x hx => h x (List.mem_cons_of_mem _ hx))
    simp only [mimeSizeParts, mimeParts, List.length_append]
    rw [partFraming_length first _ hb]
    push_cast
    rw [ihr, strBytes_length, bodySlice_length hr.1 hr.2.1 hr.2.2]

/-- C3 (amended): for ranges with `0 ≤ start`, `0 ≤ length` and
`start + length ≤ size` (the resource size being the content's byte
count), and any two boundaries of equal length (Go draws both at random
with a fixed length), `rangesMIMESize` returns exactly the number of body
bytes the streaming multipart producer writes; without `0 ≤ length` the
equality fails (see the counterexample). -/
theorem C3_mime_size_amended (b1 b2 ctype : String) (content : List Nat)
    (ranges : List httpRange) (hb : b1.length = b2.length)
    (h : ∀ r ∈ ranges, 0 ≤ r.start ∧ 0 ≤ r.length ∧ r.start + r.length ≤ (content.length : Int)) :
    rangesMIMESize b1 ranges ctype (content.length : Int)
      = ((multipartBody b2 ctype (content.length : Int) content ranges).length : Int) := by
  simp only [rangesMIMESize, multipartBody, List.length_append]
  rw [mimeParts_length hb true ranges h]
  push_cast
  have hclose : (closeDelim b1).length = (closeDelim b2).length := by
    simp [closeDelim, String.length_append, hb]
  rw [hclose, strBytes_length]

/-- Witness for C3 (amended): two valid ranges of a 10-byte resource with
two distinct equal-length boundaries. -/
theorem C3_mime_size_amended_witness :
    rangesMIMESize "aaaa" [⟨0, 2⟩, ⟨5, 3⟩] "text/plain"
        (([0, 1, 2, 3, 4, 5, 6, 7, 8, 9] : List Nat).length : Int)
      = ((multipartBody "bbbb" "text/plain"
          (([0, 1, 2, 3, 4, 5, 6, 7, 8, 9] : List Nat).length : Int)
          [0, 1, 2, 3, 4, 5, 6, 7, 8, 9] [⟨0, 2⟩, ⟨5, 3⟩]).length : Int) :=
  C3_mime_size_amended "aaaa" "bbbb" "text/plain" [0, 1, 2, 3, 4, 5, 6, 7, 8, 9]
    [⟨0, 2⟩, ⟨5, 3⟩] (by decide) (by decide)

theorem digitsVal_chars {l : List Char} {acc n : Nat} (h : digitsVal l acc = some n) :
    ∀ c ∈ l, c.isDigit = true := by
  induction l generalizing acc with
  | nil => simp
  | cons c rest ih =>
    simp only [digitsVal] at h
    split at h
    · rename_i hc
      intro x hx
      rcases List.mem_cons.mp hx with rfl | hx'
      · exact hc
      · exact ih h x hx'
    · exact Option.noConfusion h

theorem digitsToNat?_chars {l : List Char} {n : Nat} (h : digitsToNat? l = some n) :
    ∀ c ∈ l, c.isDigit = true := by
  cases l with
  | nil => simp
  | cons c rest =>
    simp only [digitsToNat?] at h
    exact digitsVal_chars h

theorem goParseInt_pos_chars {ds : List Char} {i : Int} (h : goParseInt ds = some i)
    (hpos : 0 < i) : ∀ c ∈ ds, c = '+' ∨ c.isDigit = true := by
  unfold goParseInt at h
  split at h
  · exact Option.noConfusion h
  · rename_i rest
    split at h
    · rename_i n hn
      intro x hx
      rcases List.mem_cons.mp hx with rfl | hx'
      · exact Or.inl rfl
      · exact Or.inr (digitsToNat?_chars hn x hx')
    · exact Option.noConfusion h
  · rename_i rest
    split at h
    · rename_i n hn
      split at h
      · simp only [Option.some.injEq] at h
        omega
      · exact Option.noConfusion h
    · exact Option.noConfusion h
  · split at h
    · rename_i n hn
      intro x hx
      exact Or.inr (digitsToNat?_chars hn x hx)
    · exact Option.noConfusion h

theorem plusOrDigit_not_special {c : Char} (h : c = '+' ∨ c.isDigit = true) :
    c ≠ ',' ∧ c ≠ '-' ∧ isGoSpace c = false := by
  rcases h with rfl | hd
  · refine ⟨by decide, by decide, by decide⟩
  · refine ⟨?_, ?_, ?_⟩
    · rintro rfl
      simp at hd
    · rintro rfl
      simp at hd
    · simp only [isGoSpace, Bool.or_eq_false_iff, beq_eq_false_iff_ne]
      refine ⟨⟨⟨⟨⟨?_, ?_⟩, ?_⟩, ?_⟩, ?_⟩, ?_⟩ <;> rintro rfl <;> simp at hd

theorem dropWhile_of_all_false {α : Type} (f : α → Bool) (l : List α)
    (h : ∀ c ∈ l, f c = false) : l.dropWhile f = l := by
  cases l with
  | nil => rfl
  | cons a rest => simp [List.dropWhile_cons, h a (List.mem_cons_self a rest)]

theorem goTrimSpace_of_no_space {l : List Char} (h : ∀ c ∈ l, isGoSpace c = false) :
    goTrimSpace l = l := by
  unfold goTrimSpace
  rw [dropWhile_of_all_false _ _ h,
    dropWhile_of_all_false _ _ (fun c hc => h c (List.mem_reverse.mp hc)),
    List.reverse_reverse]

theorem goSplitComma_of_no_comma {l : List Char} (h : ∀ c ∈ l, c ≠ ',') :
    goSplitComma l = [l] := by
  induction l with
  | nil => rfl
  | cons c rest ih =>
    have hrest := ih (fun x hx => h x (List.mem_cons_of_mem _ hx))
    simp [goSplitComma, h c (List.mem_cons_self c rest), hrest]

theorem splitDash_of_no_dash {l : List Char} (h : ∀ c ∈ l, c ≠ '-') (rest : List Char) :
    splitDash (l ++ '-' :: rest) = some (l, rest) := by
  induction l with
  | nil => simp [splitDash]
  | cons c cs ih =>
    have hcs := ih (fun x hx => h x (List.mem_cons_of_mem _ hx))
    simp [splitDash, h c (List.mem_cons_self c cs), hcs]

theorem goParseInt_ne_nil {ds : List Char} {i : Int} (h : goParseInt ds = some i) :
    ds ≠ [] := by
  rintro rfl
  exact Option.noConfusion h

/-- The prefix-form header `bytes=<digits of size>-` parses to the single
range `{start = size, length = 0}` (here `ds` is any decimal spelling that
`strconv.ParseInt` reads as the positive resource size). -/
theorem parseRange_prefix_form {ds : List Char} {size : Int}
    (hp : goParseInt ds = some size) (hpos : 0 < size) :
    parseRange (String.mk ("bytes=".data ++ ds ++ ['-'])) size = Except.ok [⟨size, 0⟩] := by
  have hchars := goParseInt_pos_chars hp hpos
  have hspecial := fun c hc => plusOrDigit_not_special (hchars c hc)
  have hentry : ∀ c ∈ ds ++ ['-'], c ≠ ',' := by
    intro c hc
    rcases List.mem_append.mp hc with hc' | hc'
    · exact (hspecial c hc').1
    · simp only [List.mem_singleton] at hc'
      subst hc'
      decide
  have hnospace : ∀ c ∈ ds ++ ['-'], isGoSpace c = false := by
    intro c hc
    rcases List.mem_append.mp hc with hc' | hc'
    · exact (hspecial c hc').2.2
    · simp only [List.mem_singleton] at hc'
      subst hc'
      decide
  have hne : ("bytes=".data ++ ds ++ ['-'] : List Char) ≠ [] := by
    simp
  simp only [parseRange]
  rw [if_neg (by
    intro hcon
    exact hne (by simpa [String.ext_iff] using hcon))]
  rw [if_neg (by
    push_neg
    rw [List.append_assoc]
    exact List.take_left' (by rfl))]
  rw [List.append_assoc, List.drop_left' (by rfl), goSplitComma_of_no_comma hentry]
  simp only [parseRangeEntries]
  rw [goTrimSpace_of_no_space hnospace]
  rw [if_neg (by simp)]
  rw [splitDash_of_no_dash (fun c hc => (hspecial c hc).2.1) []]
  dsimp only
  rw [goTrimSpace_of_no_space (fun c hc => (hspecial c hc).2.2)]
  have htrimnil : goTrimSpace [] = [] := rfl
  rw [htrimnil]
  simp only [buildRange, if_neg (goParseInt_ne_nil hp), hp]
  simp [sub_self]
  rw [if_neg (by omega : ¬ size < 0)]

/-- C10 (amended): for every resource of size `s > 0`, the header
`bytes=<s>-` (any decimal spelling `ds` of `s`; start equals the size) is
accepted by `parseRange`, yielding the single range `{start = s, length = 0}`,
and — provided content-type resolution completes, e.g. the response
already carries a `Content-Type` (without that proviso the handler can
panic in sniffing first, see the counterexample) — ServeHTTP responds 206
with `Content-Length: 0`, `Content-Range: bytes s-(s-1)/s`, and an empty
body. -/
theorem C10_boundary_range_amended (mimeByExt : String → String)
    (detectCT : List Nat → String) (b1 b2 : String) (content : List Nat)
    (ds : List Char) (hpos : 0 < content.length)
    (hp : goParseInt ds = some (content.length : Int)) :
    parseRange (String.mk ("bytes=".data ++ ds ++ ['-'])) (content.length : Int)
      = Except.ok [⟨(content.length : Int), 0⟩] ∧
    serveHTTP mimeByExt detectCT b1 b2 [("f", ⟨"f", false, 0, content⟩)]
      ⟨"GET", "/f", none, "", "", String.mk ("bytes=".data ++ ds ++ ['-'])⟩
      ⟨[("Content-Type", ["text/plain"])], none, []⟩
    = Except.ok ⟨[("Content-Length", ["0"]), ("Accept-Ranges", ["bytes"]),
        ("Content-Range", ["bytes " ++ toString (content.length : Int) ++ "-"
          ++ toString ((content.length : Int) - 1) ++ "/"
          ++ toString (content.length : Int)]),
        ("Content-Type", ["text/plain"])], some 206, []⟩ := by
  have hsize : (0 : Int) < (content.length : Int) := by exact_mod_cast hpos
  have hparse := parseRange_prefix_form hp hsize
  refine ⟨hparse, ?_⟩
  have hgt : ¬ ((0 : Int) > (content.length : Int)) := by omega
  have h0 : toString (0 : Int) = "0" := rfl
  have harith : (content.length : Int) + 0 - 1 = (content.length : Int) - 1 := by ring
  have hparse' := hparse
  simp only [List.cons_append, List.nil_append] at hparse'
  simp [serveHTTP, stripSlash, lookupFile, checkLastModified, checkETag,
    resolveContentType, headerLookup, headerGet, serveRanges, hparse', sumRangesSize,
    finishResp, headerSet, headerDel, contentRange, hgt, h0, harith]

/-- Witness for C10 (amended): a 3-byte resource and the header `bytes=3-`. -/
theorem C10_boundary_range_amended_witness :
    parseRange (String.mk ("bytes=".data ++ ['3'] ++ ['-'])) (([7, 7, 7] : List Nat).length : Int)
      = Except.ok [⟨(([7, 7, 7] : List Nat).length : Int), 0⟩] ∧
    serveHTTP (fun _ => "") (fun _ => "") "b1" "b2"
      [("f", ⟨"f", false, 0, [7, 7, 7]⟩)]
      ⟨"GET", "/f", none, "", "", String.mk ("bytes=".data ++ ['3'] ++ ['-'])⟩
      ⟨[("Content-Type", ["text/plain"])], none, []⟩
    = Except.ok ⟨[("Content-Length", ["0"]), ("Accept-Ranges", ["bytes"]),
        ("Content-Range", ["bytes " ++ toString (([7, 7, 7] : List Nat).length : Int) ++ "-"
          ++ toString ((([7, 7, 7] : List Nat).length : Int) - 1) ++ "/"
          ++ toString (([7, 7, 7] : List Nat).length : Int)]),
        ("Content-Type", ["text/plain"])], some 206, []⟩ :=
  C10_boundary_range_amended (fun _ => "") (fun _ => "") "b1" "b2" [7, 7, 7] ['3']
    (by decide) (by decide)
